import Mathlib

/-!
Verification of the PlantUML structural-diagram parser
(`plantuml/main.go` of big-modelling-bus.apps.v1).

Lines are modelled as `List Char`; the input source as the list of lines the
scanner delivered plus an optional read error (a `bufio.Scanner` stops
producing lines at the first read failure, so the line list is exactly what
was read before the failure).

Each Go regular expression (all of them anchored `^...$`) is embedded as a
deterministic matcher.  The Go `regexp` package uses leftmost-first
(Perl-style) semantics; for these particular patterns every quantifier is a
greedy quantifier over a single character class, and at each juncture the
adjacent classes are disjoint in a way that forces the greedy maximal munch
(backtracking alternatives all fail at the next literal or class), so a
maximal-munch matcher is extensionally equal to the regex.  The forcing
argument is recorded at each definition.
-/

set_option maxHeartbeats 1000000

namespace PlantUML

/-- The Go regexp class `\w`, i.e. `[0-9A-Za-z_]`. -/
def isWordChar (c : Char) : Bool :=
  c.isAlphanum || c = '_'

/-- The Go regexp class `\s`, i.e. `[\t\n\f\r ]`. -/
def isSpaceGo (c : Char) : Bool :=
  c = ' ' || c = '\t' || c = '\n' || c = '\r' || c = Char.ofNat 12

/-- White space as trimmed by `strings.TrimSpace` (`unicode.IsSpace`): the
full Unicode White_Space set — U+0009–U+000D, U+0020, U+0085, U+00A0,
U+1680 (5760), U+2000–U+200A (8192–8202), U+2028/U+2029 (8232/8233),
U+202F (8239), U+205F (8287), U+3000 (12288). -/
def isUnicodeSpace (c : Char) : Bool :=
  c = ' ' || c = '\t' || c = '\n' || c = Char.ofNat 11 || c = Char.ofNat 12 ||
  c = '\r' || c = Char.ofNat 133 || c = Char.ofNat 160 ||
  c = Char.ofNat 5760 ||
  c = Char.ofNat 8192 || c = Char.ofNat 8193 || c = Char.ofNat 8194 ||
  c = Char.ofNat 8195 || c = Char.ofNat 8196 || c = Char.ofNat 8197 ||
  c = Char.ofNat 8198 || c = Char.ofNat 8199 || c = Char.ofNat 8200 ||
  c = Char.ofNat 8201 || c = Char.ofNat 8202 ||
  c = Char.ofNat 8232 || c = Char.ofNat 8233 ||
  c = Char.ofNat 8239 || c = Char.ofNat 8287 || c = Char.ofNat 12288

/-- `strings.TrimSpace`: drop white space from both ends. -/
def trimSpace (l : List Char) : List Char :=
  ((l.dropWhile isUnicodeSpace).reverse.dropWhile isUnicodeSpace).reverse

/-- `strings.Trim(s, "\"")`: drop `"` characters from both ends
(as applied to the multiplicity captures in `parseRelationship`). -/
def trimQuotes (l : List Char) : List Char :=
  ((l.dropWhile (fun c => c = '"')).reverse.dropWhile (fun c => c = '"')).reverse

-- -----------------------------
-- Model definitions (struct Model / Entity / Attribute / Method /
-- Relationship / Constraint in the Go source)
-- -----------------------------

/-- Go `type Attribute struct { Name, Type string }`.  The Go field `Type`
is called `AttrType` here because `Type` is reserved in Lean. -/
structure Attribute where
  Name     : List Char
  AttrType : List Char
deriving DecidableEq, Repr

/-- Go `type Method struct { Name, ReturnType string }`. -/
structure Method where
  Name       : List Char
  ReturnType : List Char
deriving DecidableEq, Repr

/-- Go `type Entity struct { Name string; Attributes []Attribute; Methods []Method }`. -/
structure Entity where
  Name       : List Char
  Attributes : List Attribute
  Methods    : List Method
deriving DecidableEq, Repr

/-- Go `type Relationship struct`.  The Go field `Type` (the connector token,
e.g. `--`) is called `RelType` here because `Type` is reserved in Lean. -/
structure Relationship where
  From             : List Char
  To               : List Char
  RelType          : List Char
  FromMultiplicity : List Char
  ToMultiplicity   : List Char
  Label            : List Char
deriving DecidableEq, Repr

/-- Go `type Constraint struct { Kind, Target, Expr string }`. -/
structure Constraint where
  Kind   : List Char
  Target : List Char
  Expr   : List Char
deriving DecidableEq, Repr

/-- Go `type Model struct`.  The Go `map[string]*Entity` is represented by an
association list with replace-on-insert (`insertEntity`), which realises the
map's one-entry-per-key semantics; lookups are by key. -/
structure Model where
  Entities      : List (List Char × Entity)
  Relationships : List Relationship
  Constraints   : List Constraint
deriving DecidableEq, Repr

/-- Go map lookup `m.Entities[name]`. -/
def lookupEntity : List (List Char × Entity) → List Char → Option Entity
  | [], _ => none
  | (k, v) :: rest, n => if k = n then some v else lookupEntity rest n

/-- Go map store `m.Entities[name] = e`: replaces the entry if the key is
present, otherwise adds it. -/
def insertEntity : List (List Char × Entity) → List Char → Entity →
    List (List Char × Entity)
  | [], n, e => [(n, e)]
  | (k, v) :: rest, n, e =>
      if k = n then (n, e) :: rest else (k, v) :: insertEntity rest n e

/-- In Go, `p.currentClass` is a pointer to the very `Entity` struct stored in
the map under its name (both are set together in `parseEntity`), so mutating
the entity it points to mutates the map entry with that key.  This helper
realises that mutation: apply `f` to the entity stored under `key`. -/
def updateEntity : List (List Char × Entity) → List Char → (Entity → Entity) →
    List (List Char × Entity)
  | [], _, _ => []
  | (k, v) :: rest, key, f =>
      (if k = key then (k, f v) else (k, v)) :: updateEntity rest key f

-- -----------------------------
-- Grammar matchers (one per Go regexp)
-- -----------------------------

/-- The alternation `(class|entity|object)` at the start of `entityRegex`.
The three literals differ in their first character, so at most one branch can
apply; on a match, return the rest of the line. -/
def matchKeyword (l : List Char) : Option (List Char) :=
  if l.take 5 = ('c' :: 'l' :: 'a' :: 's' :: 's' :: []) then some (l.drop 5)
  else if l.take 6 = ('e' :: 'n' :: 't' :: 'i' :: 't' :: 'y' :: []) then some (l.drop 6)
  else if l.take 6 = ('o' :: 'b' :: 'j' :: 'e' :: 'c' :: 't' :: []) then some (l.drop 6)
  else none

/-- `entityRegex = ^(class|entity|object)\s+(\w+)\s*\{?$`; returns group 2
(the entity name).  Maximal munch is forced throughout: giving a character
back from `\s+` leaves a `\s` character that `\w` rejects, giving one back
from `(\w+)` leaves a `\w` character that neither `\s`, `{` nor `$` accepts,
and similarly for the final `\s*`. -/
def entityMatch (l : List Char) : Option (List Char) :=
  match matchKeyword l with
  | none => none
  | some r1 =>
    if (r1.takeWhile isSpaceGo).isEmpty then none
    else
      let r2 := r1.dropWhile isSpaceGo
      let name := r2.takeWhile isWordChar
      if name.isEmpty then none
      else
        let r4 := (r2.dropWhile isWordChar).dropWhile isSpaceGo
        if r4 = [] ∨ r4 = ['{'] then some name else none

/-- `attributeRegex = ^(\w+)\s*:\s*(\w+)$`; returns groups 1 and 2 (name and
type).  `\w`, `\s` and `:` are pairwise disjoint, so every munch is forced. -/
def attributeMatch (l : List Char) : Option (List Char × List Char) :=
  let name := l.takeWhile isWordChar
  if name.isEmpty then none
  else
    match (l.dropWhile isWordChar).dropWhile isSpaceGo with
    | ':' :: r3 =>
      let r4 := r3.dropWhile isSpaceGo
      let ty := r4.takeWhile isWordChar
      if ty.isEmpty = false ∧ (r4.dropWhile isWordChar) = [] then some (name, ty)
      else none
    | _ => none

/-- The tail `\s*:\s*(\w+)$` of `methodRegex` after the closing parenthesis;
returns group 2 (the return type). -/
def methodTail (l : List Char) : Option (List Char) :=
  match l.dropWhile isSpaceGo with
  | ':' :: r3 =>
    let r4 := r3.dropWhile isSpaceGo
    let ty := r4.takeWhile isWordChar
    if ty.isEmpty = false ∧ (r4.dropWhile isWordChar) = [] then some ty
    else none
  | _ => none

/-- The part `.*\)\s*:\s*(\w+)$` of `methodRegex`.  The greedy `.*` prefers
the longest prefix, i.e. the rightmost `\)` split whose tail matches; a
character consumed by `.` must not be a newline.  The recursion tries later
splits (longer `.*`) before treating the head character as the `\)`. -/
def methodRest : List Char → Option (List Char)
  | [] => none
  | c :: cs =>
    match methodRest cs with
    | some ty => if c = '\n' then none else some ty
    | none => if c = ')' then methodTail cs else none

/-- `methodRegex = ^(\w+)\(.*\)\s*:\s*(\w+)$`; returns groups 1 and 2 (name
and return type; the parameter text is matched but discarded, as in
`parseMethod`).  The leading `(\w+)` munch is forced since `(` is not a word
character. -/
def methodMatch (l : List Char) : Option (List Char × List Char) :=
  let name := l.takeWhile isWordChar
  if name.isEmpty then none
  else
    match l.dropWhile isWordChar with
    | '(' :: r2 =>
      match methodRest r2 with
      | some ty => some (name, ty)
      | none => none
    | _ => none

/-- The segment `\s*("[^"]+")?\s+` of `relationRegex` (it occurs twice).
Returns the raw group capture (quotes included, `[]` when the group does not
participate) and the rest of the line.  Determinism: a `"` can only follow
the whole white-space run (inside the run the quote literal fails), and if
the quote branch fails — in particular on an empty `""` — the skip branch
resumes right at the `"` character, which the following class (`[-.o*<|]` or
`\w`) rejects, so no fallback across the branches can succeed. -/
def multSep (l : List Char) : Option (List Char × List Char) :=
  match l.dropWhile isSpaceGo with
  | '"' :: r =>
    let inner := r.takeWhile (fun c => c ≠ '"')
    match r.dropWhile (fun c => c ≠ '"') with
    | '"' :: r3 =>
      if inner.isEmpty then none
      else if (r3.takeWhile isSpaceGo).isEmpty then none
      else some ('"' :: inner ++ ['"'], r3.dropWhile isSpaceGo)
    | _ => none
  | w => if (l.takeWhile isSpaceGo).isEmpty then none else some ([], w)

/-- The optional label group `(\s*:\s*(.+))?$` closing `relationRegex`, and —
without the surrounding option — the tail `\s*:\s*(.+)$` of
`constraintRegex`.  Greedy `\s*` after the colon munches the whole run; if
nothing is left, it gives back exactly one character for `(.+)` (fewest
possible), which must not be a newline; if the rest is non-empty it may
contain no newline, since shortening `\s*` only adds characters in front. -/
def colonTail (l : List Char) : Option (List Char) :=
  match l.dropWhile isSpaceGo with
  | ':' :: r2 =>
    let ws := r2.takeWhile isSpaceGo
    let rest := r2.dropWhile isSpaceGo
    if rest.isEmpty then
      match ws.getLast? with
      | some c => if c = '\n' then none else some [c]
      | none => none
    else if rest.any (fun c => c = '\n') then none
    else some rest
  | _ => none

/-- Group 7 of `relationRegex` (`[]` when the optional group is absent): on
an empty rest the group is skipped and `$` holds; on a non-empty rest only
the label group can consume it. -/
def labelPart (l : List Char) : Option (List Char) :=
  if l.isEmpty then some [] else colonTail l

/-- The connector class `[-.o*<|]` of `relationRegex`. -/
def isConnectorChar (c : Char) : Bool :=
  c = '-' || c = '.' || c = 'o' || c = '*' || c = '<' || c = '|'

/-- The capture groups of `relationRegex` used by `parseRelationship`
(`matches[1..5]` and `matches[7]`; `matches[6]` is unused in the Go code). -/
structure RelGroups where
  g1 : List Char
  g2 : List Char
  g3 : List Char
  g4 : List Char
  g5 : List Char
  g7 : List Char
deriving DecidableEq, Repr

/-- `relationRegex =
`^(\w+)\s*("[^"]+")?\s+([-.o*<|]+)\s*("[^"]+")?\s+(\w+)(\s*:\s*(.+))?$`.
Munches are forced: giving back from `(\w+)` or `([-.o*<|]+)` leaves a
character that neither `\s` nor `"` nor the next class accepts (note the
separator requires at least one white-space character in its skip branch). -/
def relationMatch (l : List Char) : Option RelGroups :=
  let g1 := l.takeWhile isWordChar
  if g1.isEmpty then none
  else
    match multSep (l.dropWhile isWordChar) with
    | none => none
    | some (g2, r1) =>
      let g3 := r1.takeWhile isConnectorChar
      if g3.isEmpty then none
      else
        match multSep (r1.dropWhile isConnectorChar) with
        | none => none
        | some (g4, r2) =>
          let g5 := r2.takeWhile isWordChar
          if g5.isEmpty then none
          else
            match labelPart (r2.dropWhile isWordChar) with
            | none => none
            | some g7 => some ⟨g1, g2, g3, g4, g5, g7⟩

/-- `constraintRegex = ^constraint\s+(\w+)\s+on\s+(\w+)\s*:\s*(.+)$`;
returns groups 1–3 (kind, target, expression).  All munches are forced by
class disjointness and the literals `constraint`, `on`, `:`. -/
def constraintMatch (l : List Char) : Option (List Char × List Char × List Char) :=
  if l.take 10 ≠ ('c' :: 'o' :: 'n' :: 's' :: 't' :: 'r' :: 'a' :: 'i' :: 'n' :: 't' :: [])
  then none
  else
    let r1 := l.drop 10
    if (r1.takeWhile isSpaceGo).isEmpty then none
    else
      let r2 := r1.dropWhile isSpaceGo
      let kind := r2.takeWhile isWordChar
      if kind.isEmpty then none
      else
        let r3 := r2.dropWhile isWordChar
        if (r3.takeWhile isSpaceGo).isEmpty then none
        else
          let r4 := r3.dropWhile isSpaceGo
          if r4.take 2 ≠ ('o' :: 'n' :: []) then none
          else
            let r5 := r4.drop 2
            if (r5.takeWhile isSpaceGo).isEmpty then none
            else
              let r6 := r5.dropWhile isSpaceGo
              let target := r6.takeWhile isWordChar
              if target.isEmpty then none
              else
                match colonTail (r6.dropWhile isWordChar) with
                | none => none
                | some expr => some (kind, target, expr)

-- -----------------------------
-- Parser (struct Parser and func Parse in the Go source)
-- -----------------------------

/-- Parser state: the model under construction and `currentClass`.  In Go,
`currentClass` is a `*Entity` that always aliases the map entry stored under
the entity's name (see `updateEntity`); it is therefore represented by that
name. -/
structure ParserState where
  model        : Model
  currentClass : Option (List Char)
deriving DecidableEq, Repr

/-- The skip condition of the parse loop:
`line == "" || strings.HasPrefix(line, "@") || strings.HasPrefix(line, "'")`. -/
def isSkipLine (l : List Char) : Bool :=
  l.isEmpty || l.head? = some '@' || l.head? = some '\''

/-- `parseRelationship`'s construction of the `Relationship` from the match:
multiplicities are `strings.Trim`-med of quotes. -/
def mkRelationship (g : RelGroups) : Relationship :=
  { From := g.g1
    FromMultiplicity := trimQuotes g.g2
    RelType := g.g3
    ToMultiplicity := trimQuotes g.g4
    To := g.g5
    Label := g.g7 }

/-- The top-level content dispatch of the parse loop: entity header, then
relationship, then constraint; an unmatched line falls off the end of the
loop body and is dropped. -/
def topLevelContent (st : ParserState) (line : List Char) : ParserState :=
  match entityMatch line with
  | some name =>
    { model := { st.model with
                  Entities := insertEntity st.model.Entities name ⟨name, [], []⟩ }
      currentClass := some name }
  | none =>
    match relationMatch line with
    | some g =>
      { st with model := { st.model with
          Relationships := st.model.Relationships ++ [mkRelationship g] } }
    | none =>
      match constraintMatch line with
      | some (k, t, e) =>
        { st with model := { st.model with
            Constraints := st.model.Constraints ++ [⟨k, t, e⟩] } }
      | none => st

/-- The in-body content dispatch: attribute, then method, appended to the
open entity; on failure of both, fall through to the top-level dispatch. -/
def bodyContent (st : ParserState) (cur : List Char) (line : List Char) :
    ParserState :=
  match attributeMatch line with
  | some (n, t) =>
    { st with model := { st.model with
        Entities := updateEntity st.model.Entities cur
          (fun e => { e with Attributes := e.Attributes ++ [⟨n, t⟩] }) } }
  | none =>
    match methodMatch line with
    | some (n, rt) =>
      { st with model := { st.model with
          Entities := updateEntity st.model.Entities cur
            (fun e => { e with Methods := e.Methods ++ [⟨n, rt⟩] }) } }
    | none => topLevelContent st line

/-- One iteration of the parse loop of `Parse` on the next scanned line. -/
def processLine (st : ParserState) (raw : List Char) : ParserState :=
  let line := trimSpace raw
  if isSkipLine line then st
  else if line = ['}'] then { st with currentClass := none }
  else
    match st.currentClass with
    | some cur => bodyContent st cur line
    | none => topLevelContent st line

/-- The initial state built by `NewParser`. -/
def initState : ParserState :=
  { model := { Entities := [], Relationships := [], Constraints := [] }
    currentClass := none }

/-- The whole scan loop of `Parse` over the delivered lines. -/
def runParser (lines : List (List Char)) : ParserState :=
  lines.foldl processLine initState

/-- The model built from the delivered lines (ignoring the error check). -/
def ParseLines (lines : List (List Char)) : Model :=
  (runParser lines).model

/-- `Parse`: run the scan loop over the lines the scanner delivered, then
check `p.scanner.Err()`; on a read error return `nil, err` — the partial
model is discarded — otherwise return the model.  A failing scanner stops
delivering lines at the failure, so `lines` is exactly the prefix read
before it. -/
def Parse (lines : List (List Char)) (readErr : Option (List Char)) :
    Except (List Char) Model :=
  let st := runParser lines
  match readErr with
  | some e => Except.error e
  | none => Except.ok st.model

-- -----------------------------
-- Utility (func (m *Model) DebugPrint in the Go source)
-- -----------------------------

/-- The lines printed by `DebugPrint`.  `fmt.Println(" -", e.Name)` joins its
arguments with one space; the `Printf` formats are transcribed verbatim.
Entities are emitted in the association-list order (the Go map's iteration
order is unspecified; the properties proved below use models whose entity
ordering is irrelevant). -/
def debugPrintLines (m : Model) : List (List Char) :=
  [("Entities:").data] ++
  (m.Entities.map fun kv =>
      [(" - ").data ++ kv.2.Name] ++
      (kv.2.Attributes.map fun a =>
        ("    attr ").data ++ a.Name ++ (" : ").data ++ a.AttrType) ++
      (kv.2.Methods.map fun mt =>
        ("    method ").data ++ mt.Name ++ ("() : ").data ++ mt.ReturnType)).flatten ++
  [("Relationships:").data] ++
  (m.Relationships.map fun r =>
    (" - ").data ++ r.From ++ (" \"").data ++ r.FromMultiplicity ++
    ("\" ").data ++ r.RelType ++ (" \"").data ++ r.ToMultiplicity ++
    ("\" ").data ++ r.To ++ (" : ").data ++ r.Label) ++
  [("Constraints:").data] ++
  (m.Constraints.map fun c =>
    (" - ").data ++ c.Kind ++ (" on ").data ++ c.Target ++ (" : ").data ++ c.Expr)

-- -----------------------------
-- Sanity checks of the embedding against the reference behaviour
-- -----------------------------

example : relationMatch (("A \"\" -- \"\" B : x").data) = none := by decide

example : relationMatch (("A \"\" -- \"1\" B : x").data) = none := by decide

example : relationMatch (("A \"1\" -- \"\" B : x").data) = none := by decide

example : relationMatch (("A \"\" o-- B").data) = none := by decide

example : relationMatch (("A \"\" -- \"\" B").data) = none := by decide

example : entityMatch (("class Student \x7b").data) =
    some (("Student").data) := by decide

example : attributeMatch (("name : string").data) =
    some ((("name").data, ("string").data)) := by decide

example : methodMatch (("getName() : string").data) =
    some ((("getName").data, ("string").data)) := by decide

example : constraintMatch (("constraint unique on Student : studentNumber").data) =
    some ((("unique").data, ("Student").data, ("studentNumber").data)) := by decide

example : relationMatch (("A-- B").data) = none := by decide

example : relationMatch (("A \"1\"-- B").data) = none := by decide

example : ParseLines [("class Student \x7b").data, (" name : string").data, ("\x7d").data] =
    { Entities := [(("Student").data,
        { Name := ("Student").data
          Attributes := [{ Name := ("name").data, AttrType := ("string").data }]
          Methods := [] })]
      Relationships := []
      Constraints := [] } := by decide

-- -----------------------------
-- Helper lemmas
-- -----------------------------

/-- A line whose trimmed form satisfies the skip condition is ignored by the
parse loop. -/
theorem processLine_skip {raw : List Char}
    (h : isSkipLine (trimSpace raw) = true) (st : ParserState) :
    processLine st raw = st := by
  simp [processLine, h]

/-- Inserting a line that never changes the state anywhere in the input does
not change the final parser state. -/
theorem runParser_insert_of_inert {raw : List Char}
    (h : ∀ st, processLine st raw = st) (pre post : List (List Char)) :
    runParser (pre ++ raw :: post) = runParser (pre ++ post) := by
  simp [runParser, List.foldl_append, List.foldl_cons, h]

/-- A trimmed content line on which every matcher declines leaves the parser
state unchanged (the silent-drop path of the parse loop). -/
theorem processLine_unmatched {raw : List Char}
    (hskip : isSkipLine (trimSpace raw) = false)
    (hclose : trimSpace raw ≠ ['}'])
    (hattr : attributeMatch (trimSpace raw) = none)
    (hmeth : methodMatch (trimSpace raw) = none)
    (hent : entityMatch (trimSpace raw) = none)
    (hrel : relationMatch (trimSpace raw) = none)
    (hcon : constraintMatch (trimSpace raw) = none)
    (st : ParserState) : processLine st raw = st := by
  cases hc : st.currentClass <;>
    simp [processLine, hskip, hclose, bodyContent, topLevelContent,
      hattr, hmeth, hent, hrel, hcon, hc]

theorem lookupEntity_insertEntity (es : List (List Char × Entity))
    (n nm : List Char) (e : Entity) :
    lookupEntity (insertEntity es n e) nm =
      if nm = n then some e else lookupEntity es nm := by
  induction es with
  | nil =>
    simp only [insertEntity, lookupEntity]
    by_cases h : nm = n
    · simp [h]
    · rw [if_neg (Ne.symm h), if_neg h]
  | cons kv rest ih =>
    obtain ⟨k, v⟩ := kv
    simp only [insertEntity]
    by_cases h1 : k = n
    · subst h1
      simp only [if_pos rfl, lookupEntity]
      by_cases h2 : nm = k
      · simp [h2]
      · rw [if_neg (Ne.symm h2), if_neg h2, if_neg (Ne.symm h2)]
    · rw [if_neg h1]
      simp only [lookupEntity, ih]
      by_cases h2 : k = nm
      · subst h2
        rw [if_pos rfl, if_neg (fun hh => h1 hh), if_pos rfl]
      · rw [if_neg h2]
        by_cases h3 : nm = n
        · simp [h3]
        · rw [if_neg h3, if_neg h3, if_neg h2]

theorem lookupEntity_updateEntity (es : List (List Char × Entity))
    (key nm : List Char) (f : Entity → Entity) :
    lookupEntity (updateEntity es key f) nm =
      if nm = key then (lookupEntity es nm).map f else lookupEntity es nm := by
  induction es with
  | nil =>
    simp only [updateEntity, lookupEntity]
    by_cases h : nm = key <;> simp [h]
  | cons kv rest ih =>
    obtain ⟨k, v⟩ := kv
    simp only [updateEntity]
    by_cases h1 : k = key
    · subst h1
      rw [if_pos rfl]
      simp only [lookupEntity]
      by_cases h2 : k = nm
      · subst h2
        rw [if_pos rfl, if_pos rfl, if_pos rfl]
        rfl
      · rw [if_neg h2, if_neg h2, ih]
    · rw [if_neg h1]
      simp only [lookupEntity]
      by_cases h2 : k = nm
      · subst h2
        rw [if_pos rfl, if_pos rfl, if_neg h1]
      · rw [if_neg h2, if_neg h2, ih]

theorem entityKeys_updateEntity (es : List (List Char × Entity))
    (key : List Char) (f : Entity → Entity) :
    (updateEntity es key f).map Prod.fst = es.map Prod.fst := by
  induction es with
  | nil => rfl
  | cons kv rest ih =>
    obtain ⟨k, v⟩ := kv
    simp only [updateEntity, List.map_cons, ih]
    by_cases h : k = key <;> simp [h]

theorem mem_keys_insertEntity {es : List (List Char × Entity)}
    {n k : List Char} {e : Entity}
    (h : k ∈ (insertEntity es n e).map Prod.fst) :
    k ∈ es.map Prod.fst ∨ k = n := by
  induction es with
  | nil =>
    simp only [insertEntity, List.map_cons, List.map_nil, List.mem_cons,
      List.not_mem_nil, or_false] at h
    exact Or.inr h
  | cons kv rest ih =>
    obtain ⟨k', v⟩ := kv
    simp only [insertEntity] at h
    by_cases h1 : k' = n
    · rw [if_pos h1] at h
      simp only [List.map_cons, List.mem_cons] at h ⊢
      rcases h with h | h
      · exact Or.inr h
      · exact Or.inl (Or.inr h)
    · rw [if_neg h1] at h
      simp only [List.map_cons, List.mem_cons] at h ⊢
      rcases h with h | h
      · exact Or.inl (Or.inl h)
      · rcases ih h with h' | h'
        · exact Or.inl (Or.inr h')
        · exact Or.inr h'

theorem nodup_keys_insertEntity {es : List (List Char × Entity)}
    {n : List Char} {e : Entity} (h : (es.map Prod.fst).Nodup) :
    ((insertEntity es n e).map Prod.fst).Nodup := by
  induction es with
  | nil => simp [insertEntity]
  | cons kv rest ih =>
    obtain ⟨k, v⟩ := kv
    simp only [List.map_cons, List.nodup_cons] at h
    simp only [insertEntity]
    split_ifs with h1
    · subst h1; simp [List.nodup_cons, h.1, h.2]
    · simp only [List.map_cons, List.nodup_cons]
      refine ⟨fun hmem => ?_, ih h.2⟩
      rcases mem_keys_insertEntity hmem with hk | hk
      · exact h.1 hk
      · exact h1 hk

/-- Every branch of the top-level dispatch preserves distinctness of the
entity keys. -/
theorem nodup_keys_topLevelContent {st : ParserState}
    (h : (st.model.Entities.map Prod.fst).Nodup) (line : List Char) :
    (((topLevelContent st line).model.Entities).map Prod.fst).Nodup := by
  rw [topLevelContent.eq_def]
  split
  · simpa using nodup_keys_insertEntity h
  · split
    · simpa using h
    · split
      · simpa using h
      · simpa using h

/-- The parse loop preserves distinctness of the entity keys. -/
theorem nodup_keys_processLine {st : ParserState}
    (h : (st.model.Entities.map Prod.fst).Nodup) (raw : List Char) :
    (((processLine st raw).model.Entities).map Prod.fst).Nodup := by
  simp only [processLine]
  split
  · exact h
  · split
    · exact h
    · split
      · rw [bodyContent.eq_def]
        split
        · simpa [entityKeys_updateEntity] using h
        · split
          · simpa [entityKeys_updateEntity] using h
          · exact nodup_keys_topLevelContent h _
      · exact nodup_keys_topLevelContent h _

/-- For every input, the entity keys of the resulting model are pairwise
distinct: the mapping has at most one entry per name. -/
theorem nodup_keys_runParser (lines : List (List Char)) :
    (((ParseLines lines).Entities).map Prod.fst).Nodup := by
  suffices h : ∀ (ls : List (List Char)) (st : ParserState),
      (st.model.Entities.map Prod.fst).Nodup →
      (((ls.foldl processLine st).model.Entities).map Prod.fst).Nodup from
    h lines initState (by simp [initState])
  intro ls
  induction ls with
  | nil => exact fun st hst => hst
  | cons l ls ih => exact fun st hst => ih _ (nodup_keys_processLine hst l)

/-- A line with a non-empty leading `\w+` munch starts with a word
character. -/
theorem takeWhile_word_head {l : List Char}
    (h : (l.takeWhile isWordChar).isEmpty = false) :
    ∃ c cs, l = c :: cs ∧ isWordChar c = true := by
  cases l with
  | nil => simp [List.takeWhile] at h
  | cons c cs =>
    by_cases hw : isWordChar c
    · exact ⟨c, cs, rfl, hw⟩
    · rw [List.takeWhile_cons_of_neg hw] at h
      simp at h

theorem attributeMatch_head {l : List Char} {p : List Char × List Char}
    (h : attributeMatch l = some p) :
    ∃ c cs, l = c :: cs ∧ isWordChar c = true := by
  refine takeWhile_word_head ?_
  cases he : (l.takeWhile isWordChar).isEmpty
  · rfl
  · rw [attributeMatch] at h; simp [he] at h

theorem methodMatch_head {l : List Char} {p : List Char × List Char}
    (h : methodMatch l = some p) :
    ∃ c cs, l = c :: cs ∧ isWordChar c = true := by
  refine takeWhile_word_head ?_
  cases he : (l.takeWhile isWordChar).isEmpty
  · rfl
  · rw [methodMatch] at h; simp [he] at h

theorem relationMatch_head {l : List Char} {g : RelGroups}
    (h : relationMatch l = some g) :
    ∃ c cs, l = c :: cs ∧ isWordChar c = true := by
  refine takeWhile_word_head ?_
  cases he : (l.takeWhile isWordChar).isEmpty
  · rfl
  · rw [relationMatch] at h; simp [he] at h

theorem constraintMatch_head {l : List Char}
    {p : List Char × List Char × List Char} (h : constraintMatch l = some p) :
    ∃ cs, l = 'c' :: cs := by
  rw [constraintMatch] at h
  by_cases h10 : l.take 10 =
      ('c' :: 'o' :: 'n' :: 's' :: 't' :: 'r' :: 'a' :: 'i' :: 'n' :: 't' :: [])
  · refine ⟨('o' :: 'n' :: 's' :: 't' :: 'r' :: 'a' :: 'i' :: 'n' :: 't' :: []) ++
      l.drop 10, ?_⟩
    conv_lhs => rw [← List.take_append_drop 10 l, h10]
    rfl
  · rw [if_pos h10] at h
    exact Option.noConfusion h

/-- A content line starting with a word character is neither skipped nor a
scope close. -/
theorem word_head_content {c : Char} {cs : List Char}
    (hw : isWordChar c = true) :
    isSkipLine (c :: cs) = false ∧ c :: cs ≠ ['}'] := by
  have h1 : c ≠ '@' := fun hc => by subst hc; exact absurd hw (by decide)
  have h2 : c ≠ '\'' := fun hc => by subst hc; exact absurd hw (by decide)
  have h3 : c ≠ '}' := fun hc => by subst hc; exact absurd hw (by decide)
  refine ⟨by simp [isSkipLine, h1, h2], fun hc => ?_⟩
  rw [List.cons.injEq] at hc
  exact h3 hc.1

theorem matchKeyword_head {l r : List Char} (h : matchKeyword l = some r) :
    ∃ c cs, l = c :: cs ∧ (c = 'c' ∨ c = 'e' ∨ c = 'o') := by
  rw [matchKeyword] at h
  split_ifs at h with h5 h6 h7
  · refine ⟨'c', ('l' :: 'a' :: 's' :: 's' :: []) ++ l.drop 5, ?_, Or.inl rfl⟩
    conv_lhs => rw [← List.take_append_drop 5 l, h5]
    rfl
  · refine ⟨'e', ('n' :: 't' :: 'i' :: 't' :: 'y' :: []) ++ l.drop 6, ?_,
      Or.inr (Or.inl rfl)⟩
    conv_lhs => rw [← List.take_append_drop 6 l, h6]
    rfl
  · refine ⟨'o', ('b' :: 'j' :: 'e' :: 'c' :: 't' :: []) ++ l.drop 6, ?_,
      Or.inr (Or.inr rfl)⟩
    conv_lhs => rw [← List.take_append_drop 6 l, h7]
    rfl

theorem entityMatch_content {l n : List Char} (h : entityMatch l = some n) :
    isSkipLine l = false ∧ l ≠ ['}'] := by
  rw [entityMatch] at h
  rcases hk : matchKeyword l with _ | r
  · rw [hk] at h; exact absurd h (by simp)
  · obtain ⟨c, cs, hl, hc⟩ := matchKeyword_head hk
    subst hl
    have h1 : c ≠ '@' := by rcases hc with h | h | h <;> subst h <;> decide
    have h2 : c ≠ '\'' := by rcases hc with h | h | h <;> subst h <;> decide
    have h3 : c ≠ '}' := by rcases hc with h | h | h <;> subst h <;> decide
    refine ⟨by simp [isSkipLine, h1, h2], fun hcon => ?_⟩
    rw [List.cons.injEq] at hcon
    exact h3 hcon.1

-- -----------------------------
-- Claim theorems
-- -----------------------------

/-- C1 (counterexample): on an input-read failure the error is surfaced, but
the claim's "the result retains everything parsed before the failing line"
is false — `Parse` returns `nil, err`, discarding the partial model, so the
result is not the model of the successfully read prefix. -/
theorem read_error_result_retention_cex :
    Parse [("class A \x7b").data] (some (("read failure").data)) =
      Except.error (("read failure").data) ∧
    Parse [("class A \x7b").data] (some (("read failure").data)) ≠
      Except.ok (ParseLines [("class A \x7b").data]) := by
  exact ⟨rfl, fun h => Except.noConfusion h⟩

/-- C1 (amended): if the underlying text source fails while a line is being
read, `Parse` aborts immediately and surfaces the error to the caller, and
the partial model built from the lines read before the failure is discarded
(the caller receives no model); when the source does not fail, no grammar
condition ever produces an error — `Parse` returns the parsed model. -/
theorem read_error_propagation (lines : List (List Char)) (e : List Char) :
    Parse lines (some e) = Except.error e ∧
    Parse lines none = Except.ok (ParseLines lines) :=
  ⟨rfl, rfl⟩

/-- C8: a line that trims to empty, or whose trimmed form begins with `'` or
`@`, never affects the parse: it leaves the parser state (model and open-body
state) unchanged, and parsing any input with such a line inserted at any
position gives the same final state — model and open body — as parsing the
input without it. -/
theorem noise_lines_no_effect (raw : List Char)
    (h : isSkipLine (trimSpace raw) = true) :
    (∀ st, processLine st raw = st) ∧
    (∀ pre post, runParser (pre ++ raw :: post) = runParser (pre ++ post)) :=
  ⟨processLine_skip h, runParser_insert_of_inert (processLine_skip h)⟩

theorem noise_lines_no_effect_witness :
    isSkipLine (trimSpace ((" @startuml").data)) = true ∧
    runParser [("class A \x7b").data, (" @startuml").data, (" x : int").data] =
      runParser [("class A \x7b").data, (" x : int").data] :=
  ⟨by decide,
    (noise_lines_no_effect ((" @startuml").data) (by decide)).2
      [("class A \x7b").data] [(" x : int").data]⟩

/-- C3: `Parse` never returns an error because of an unrecognized content
line — a grammar-only parse always returns a model — and such a line leaves
the model and the open-body state unchanged, so parsing an input with the
line inserted anywhere equals parsing the input without it. -/
theorem unmatched_line_dropped (raw : List Char)
    (hskip : isSkipLine (trimSpace raw) = false)
    (hclose : trimSpace raw ≠ ['}'])
    (hattr : attributeMatch (trimSpace raw) = none)
    (hmeth : methodMatch (trimSpace raw) = none)
    (hent : entityMatch (trimSpace raw) = none)
    (hrel : relationMatch (trimSpace raw) = none)
    (hcon : constraintMatch (trimSpace raw) = none) :
    (∀ st, processLine st raw = st) ∧
    (∀ pre post, Parse (pre ++ raw :: post) none = Parse (pre ++ post) none) ∧
    (∀ lines, Parse lines none = Except.ok (ParseLines lines)) := by
  refine ⟨processLine_unmatched hskip hclose hattr hmeth hent hrel hcon,
    fun pre post => ?_, fun lines => rfl⟩
  simp only [Parse,
    runParser_insert_of_inert
      (processLine_unmatched hskip hclose hattr hmeth hent hrel hcon) pre post]

theorem unmatched_line_dropped_witness :
    isSkipLine (trimSpace (("???free text???").data)) = false ∧
    Parse [("class A \x7b").data, ("???free text???").data, ("A -- B : r").data]
        none =
      Parse [("class A \x7b").data, ("A -- B : r").data] none :=
  ⟨by decide,
    (unmatched_line_dropped (("???free text???").data) (by decide) (by decide)
        (by decide) (by decide) (by decide) (by decide) (by decide)).2.1
      [("class A \x7b").data] [("A -- B : r").data]⟩

/-- C2: for every input, the resulting entities mapping has at most one
entry per distinct name; and when an entity header whose name is already
present is recognized, the mapping entry is replaced by a fresh empty entity
— the earlier entity's attributes and methods are lost — and that fresh
entity's body becomes the open one. -/
theorem entity_uniqueness_and_overwrite (st : ParserState)
    (raw name : List Char) (old : Entity)
    (hskip : isSkipLine (trimSpace raw) = false)
    (hclose : trimSpace raw ≠ ['}'])
    (hbody : ∀ c, st.currentClass = some c →
      attributeMatch (trimSpace raw) = none ∧ methodMatch (trimSpace raw) = none)
    (hent : entityMatch (trimSpace raw) = some name)
    (_hpresent : lookupEntity st.model.Entities name = some old) :
    (∀ lines, (((ParseLines lines).Entities).map Prod.fst).Nodup) ∧
    lookupEntity (processLine st raw).model.Entities name =
      some { Name := name, Attributes := [], Methods := [] } ∧
    (processLine st raw).currentClass = some name := by
  have hstep : processLine st raw =
      { model := { st.model with
          Entities := insertEntity st.model.Entities name
            { Name := name, Attributes := [], Methods := [] } }
        currentClass := some name } := by
    cases hc : st.currentClass with
    | none => simp [processLine, hskip, hclose, topLevelContent, hent, hc]
    | some cur =>
      obtain ⟨ha, hm⟩ := hbody cur hc
      simp [processLine, hskip, hclose, hc, bodyContent, ha, hm,
        topLevelContent, hent]
  refine ⟨nodup_keys_runParser, ?_, ?_⟩
  · rw [hstep]
    simp [lookupEntity_insertEntity]
  · rw [hstep]

theorem entity_uniqueness_and_overwrite_witness :
    entityMatch (trimSpace (("class A \x7b").data)) = some (("A").data) ∧
    lookupEntity
        (processLine
          (runParser [("class A \x7b").data, (" x : int").data])
          (("class A \x7b").data)).model.Entities (("A").data) =
      some { Name := ("A").data, Attributes := [], Methods := [] } ∧
    (processLine (runParser [("class A \x7b").data, (" x : int").data])
        (("class A \x7b").data)).currentClass = some (("A").data) :=
  ⟨by decide,
    (entity_uniqueness_and_overwrite
      (runParser [("class A \x7b").data, (" x : int").data])
      (("class A \x7b").data) (("A").data)
      { Name := ("A").data
        Attributes := [{ Name := ("x").data, AttrType := ("int").data }]
        Methods := [] }
      (by decide) (by decide) (fun c hc => ⟨by decide, by decide⟩)
      (by decide) (by decide)).2⟩

/-- C4: a line of attribute shape or method shape appearing while no entity
body is open is dispatched to the top-level matchers (entity header,
relationship, constraint — otherwise dropped) and is never recorded as an
attribute or method of any entity: every entity of the resulting model is
either exactly as before or fresh and empty. -/
theorem no_attr_method_outside_body (st : ParserState) (raw : List Char)
    (htop : st.currentClass = none)
    (hshape : attributeMatch (trimSpace raw) ≠ none ∨
      methodMatch (trimSpace raw) ≠ none) :
    processLine st raw = topLevelContent st (trimSpace raw) ∧
    ∀ nm ent, lookupEntity (processLine st raw).model.Entities nm = some ent →
      lookupEntity st.model.Entities nm = some ent ∨
      ent = { Name := nm, Attributes := [], Methods := [] } := by
  obtain ⟨c, cs, hl, hw⟩ :
      ∃ c cs, trimSpace raw = c :: cs ∧ isWordChar c = true := by
    rcases hshape with hs | hs
    · rcases hm : attributeMatch (trimSpace raw) with _ | p
      · exact absurd hm hs
      · exact attributeMatch_head hm
    · rcases hm : methodMatch (trimSpace raw) with _ | p
      · exact absurd hm hs
      · exact methodMatch_head hm
  have hskip : isSkipLine (trimSpace raw) = false := by
    rw [hl]; exact (word_head_content hw).1
  have hclose : trimSpace raw ≠ ['}'] := by
    rw [hl]; exact (word_head_content hw).2
  have hpl : processLine st raw = topLevelContent st (trimSpace raw) := by
    simp [processLine, hskip, hclose, htop]
  refine ⟨hpl, ?_⟩
  intro nm ent hlk
  rw [hpl] at hlk
  rcases hE : entityMatch (trimSpace raw) with _ | n
  · rcases hR : relationMatch (trimSpace raw) with _ | g
    · rcases hC : constraintMatch (trimSpace raw) with _ | p3
      · simp only [topLevelContent, hE, hR, hC] at hlk
        exact Or.inl hlk
      · simp only [topLevelContent, hE, hR, hC] at hlk
        exact Or.inl hlk
    · simp only [topLevelContent, hE, hR] at hlk
      exact Or.inl hlk
  · simp only [topLevelContent, hE] at hlk
    rw [lookupEntity_insertEntity] at hlk
    by_cases hnm : nm = n
    · rw [if_pos hnm] at hlk
      injection hlk with h'
      exact Or.inr (by rw [← h', hnm])
    · rw [if_neg hnm] at hlk
      exact Or.inl hlk

theorem no_attr_method_outside_body_witness :
    attributeMatch (trimSpace ((" x : int").data)) ≠ none ∧
    processLine initState ((" x : int").data) =
      topLevelContent initState (trimSpace ((" x : int").data)) :=
  ⟨by decide,
    (no_attr_method_outside_body initState ((" x : int").data) rfl
      (Or.inl (by decide))).1⟩

/-- C5: while an entity body is open, a content line matching neither the
attribute nor the method pattern falls through to the top-level matchers; in
particular a new entity header without a preceding `}` is recognized: the
previous entity keeps the attributes and methods gathered so far, the new
entity is inserted fresh, and its body becomes the open one. -/
theorem header_in_open_body (st : ParserState) (cur raw newName : List Char)
    (hbody : st.currentClass = some cur)
    (hattr : attributeMatch (trimSpace raw) = none)
    (hmeth : methodMatch (trimSpace raw) = none)
    (hent : entityMatch (trimSpace raw) = some newName)
    (hne : newName ≠ cur) :
    (processLine st raw).currentClass = some newName ∧
    lookupEntity (processLine st raw).model.Entities newName =
      some { Name := newName, Attributes := [], Methods := [] } ∧
    lookupEntity (processLine st raw).model.Entities cur =
      lookupEntity st.model.Entities cur := by
  obtain ⟨hskip, hclose⟩ := entityMatch_content hent
  have hstep : processLine st raw =
      { model := { st.model with
          Entities := insertEntity st.model.Entities newName
            { Name := newName, Attributes := [], Methods := [] } }
        currentClass := some newName } := by
    simp [processLine, hskip, hclose, hbody, bodyContent, hattr, hmeth,
      topLevelContent, hent]
  rw [hstep]
  refine ⟨rfl, ?_, ?_⟩
  · simp [lookupEntity_insertEntity]
  · rw [lookupEntity_insertEntity, if_neg (Ne.symm hne)]

theorem header_in_open_body_witness :
    entityMatch (trimSpace (("class B \x7b").data)) = some (("B").data) ∧
    (processLine (runParser [("class A \x7b").data, (" x : int").data])
        (("class B \x7b").data)).currentClass = some (("B").data) ∧
    lookupEntity
        (processLine (runParser [("class A \x7b").data, (" x : int").data])
          (("class B \x7b").data)).model.Entities (("A").data) =
      some { Name := ("A").data
             Attributes := [{ Name := ("x").data, AttrType := ("int").data }]
             Methods := [] } :=
  ⟨by decide,
    (header_in_open_body (runParser [("class A \x7b").data, (" x : int").data])
        (("A").data) (("class B \x7b").data) (("B").data)
        (by decide) (by decide) (by decide) (by decide) (by decide)).1,
    by
      rw [(header_in_open_body
        (runParser [("class A \x7b").data, (" x : int").data])
        (("A").data) (("class B \x7b").data) (("B").data)
        (by decide) (by decide) (by decide) (by decide) (by decide)).2.2]
      decide⟩

/-- An attribute line processed while a body is open is appended to the open
entity's attribute list and leaves the open body unchanged. -/
theorem bodyContent_attr_step (st : ParserState) (cur raw2 nm ty : List Char)
    (ent : Entity)
    (hb : st.currentClass = some cur)
    (hc : lookupEntity st.model.Entities cur = some ent)
    (hA : attributeMatch (trimSpace raw2) = some (nm, ty)) :
    lookupEntity (processLine st raw2).model.Entities cur =
      some { ent with Attributes := ent.Attributes ++ [⟨nm, ty⟩] } ∧
    (processLine st raw2).currentClass = some cur := by
  obtain ⟨ch, cs, hl, hw⟩ := attributeMatch_head hA
  have hskip : isSkipLine (trimSpace raw2) = false := by
    rw [hl]; exact (word_head_content hw).1
  have hclose : trimSpace raw2 ≠ ['}'] := by
    rw [hl]; exact (word_head_content hw).2
  have hstep : processLine st raw2 = { st with model := { st.model with
      Entities := updateEntity st.model.Entities cur
        (fun e => { e with Attributes := e.Attributes ++ [⟨nm, ty⟩] }) } } := by
    simp [processLine, hskip, hclose, hb, bodyContent, hA]
  rw [hstep]
  refine ⟨?_, hb⟩
  show lookupEntity (updateEntity st.model.Entities cur _) cur = _
  rw [lookupEntity_updateEntity, if_pos rfl, hc]
  rfl

/-- A method line processed while a body is open is appended to the open
entity's method list and leaves the open body unchanged. -/
theorem bodyContent_method_step (st : ParserState) (cur raw2 nm ty : List Char)
    (ent : Entity)
    (hb : st.currentClass = some cur)
    (hc : lookupEntity st.model.Entities cur = some ent)
    (hM : methodMatch (trimSpace raw2) = some (nm, ty))
    (hA : attributeMatch (trimSpace raw2) = none) :
    lookupEntity (processLine st raw2).model.Entities cur =
      some { ent with Methods := ent.Methods ++ [⟨nm, ty⟩] } ∧
    (processLine st raw2).currentClass = some cur := by
  obtain ⟨ch, cs, hl, hw⟩ := methodMatch_head hM
  have hskip : isSkipLine (trimSpace raw2) = false := by
    rw [hl]; exact (word_head_content hw).1
  have hclose : trimSpace raw2 ≠ ['}'] := by
    rw [hl]; exact (word_head_content hw).2
  have hstep : processLine st raw2 = { st with model := { st.model with
      Entities := updateEntity st.model.Entities cur
        (fun e => { e with Methods := e.Methods ++ [⟨nm, ty⟩] }) } } := by
    simp [processLine, hskip, hclose, hb, bodyContent, hA, hM]
  rw [hstep]
  refine ⟨?_, hb⟩
  show lookupEntity (updateEntity st.model.Entities cur _) cur = _
  rw [lookupEntity_updateEntity, if_pos rfl, hc]
  rfl

/-- C10: a relationship or constraint line encountered while an entity body
is open appends its fragment to the model's relationships (resp.
constraints), leaves the entities and the open-body state untouched, and a
following attribute or method line is still appended to the same open
entity. -/
theorem fragment_in_open_body_frame (st : ParserState) (cur raw : List Char)
    (ent : Entity)
    (hbody : st.currentClass = some cur)
    (hattr : attributeMatch (trimSpace raw) = none)
    (hmeth : methodMatch (trimSpace raw) = none)
    (hent : entityMatch (trimSpace raw) = none)
    (hfrag : (∃ g, relationMatch (trimSpace raw) = some g) ∨
      (relationMatch (trimSpace raw) = none ∧
        ∃ p, constraintMatch (trimSpace raw) = some p))
    (hcur : lookupEntity st.model.Entities cur = some ent) :
    (processLine st raw).currentClass = some cur ∧
    (processLine st raw).model.Entities = st.model.Entities ∧
    ((∃ g, (processLine st raw).model.Relationships =
        st.model.Relationships ++ [mkRelationship g] ∧
      (processLine st raw).model.Constraints = st.model.Constraints) ∨
     (∃ k t e, (processLine st raw).model.Constraints =
        st.model.Constraints ++ [(⟨k, t, e⟩ : Constraint)] ∧
      (processLine st raw).model.Relationships = st.model.Relationships)) ∧
    (∀ raw2 nm ty, attributeMatch (trimSpace raw2) = some (nm, ty) →
      lookupEntity (processLine (processLine st raw) raw2).model.Entities cur =
        some { ent with Attributes := ent.Attributes ++ [⟨nm, ty⟩] } ∧
      (processLine (processLine st raw) raw2).currentClass = some cur) ∧
    (∀ raw2 nm ty, methodMatch (trimSpace raw2) = some (nm, ty) →
      attributeMatch (trimSpace raw2) = none →
      lookupEntity (processLine (processLine st raw) raw2).model.Entities cur =
        some { ent with Methods := ent.Methods ++ [⟨nm, ty⟩] } ∧
      (processLine (processLine st raw) raw2).currentClass = some cur) := by
  obtain ⟨hskip, hclose⟩ :
      isSkipLine (trimSpace raw) = false ∧ trimSpace raw ≠ ['}'] := by
    rcases hfrag with ⟨g, hg⟩ | ⟨hR, p, hp⟩
    · obtain ⟨c, cs, hl, hw⟩ := relationMatch_head hg
      exact ⟨by rw [hl]; exact (word_head_content hw).1,
        by rw [hl]; exact (word_head_content hw).2⟩
    · obtain ⟨cs, hl⟩ := constraintMatch_head hp
      exact ⟨by rw [hl]; exact (word_head_content (by decide)).1,
        by rw [hl]; exact (word_head_content (by decide)).2⟩
  rcases hfrag with ⟨g, hg⟩ | ⟨hR, ⟨k, t, e2⟩, hp⟩
  · have hstep : processLine st raw = { st with model := { st.model with
        Relationships := st.model.Relationships ++ [mkRelationship g] } } := by
      simp [processLine, hskip, hclose, hbody, bodyContent, hattr, hmeth,
        topLevelContent, hent, hg]
    refine ⟨by rw [hstep]; exact hbody, by rw [hstep],
      Or.inl ⟨g, by rw [hstep]; exact ⟨rfl, rfl⟩⟩, ?_, ?_⟩
    · intro raw2 nm ty hA2
      exact bodyContent_attr_step _ cur raw2 nm ty ent
        (by rw [hstep]; exact hbody) (by rw [hstep]; exact hcur) hA2
    · intro raw2 nm ty hM2 hA2
      exact bodyContent_method_step _ cur raw2 nm ty ent
        (by rw [hstep]; exact hbody) (by rw [hstep]; exact hcur) hM2 hA2
  · have hstep : processLine st raw = { st with model := { st.model with
        Constraints := st.model.Constraints ++ [(⟨k, t, e2⟩ : Constraint)] } } := by
      simp [processLine, hskip, hclose, hbody, bodyContent, hattr, hmeth,
        topLevelContent, hent, hR, hp]
    refine ⟨by rw [hstep]; exact hbody, by rw [hstep],
      Or.inr ⟨k, t, e2, by rw [hstep]; exact ⟨rfl, rfl⟩⟩, ?_, ?_⟩
    · intro raw2 nm ty hA2
      exact bodyContent_attr_step _ cur raw2 nm ty ent
        (by rw [hstep]; exact hbody) (by rw [hstep]; exact hcur) hA2
    · intro raw2 nm ty hM2 hA2
      exact bodyContent_method_step _ cur raw2 nm ty ent
        (by rw [hstep]; exact hbody) (by rw [hstep]; exact hcur) hM2 hA2

theorem fragment_in_open_body_frame_witness :
    relationMatch (trimSpace (("A -- B : r").data)) =
      some ⟨("A").data, [], ("--").data, [], ("B").data, ("r").data⟩ ∧
    lookupEntity
        (processLine
          (processLine (runParser [("class A \x7b").data, (" x : int").data])
            (("A -- B : r").data))
          ((" y : int").data)).model.Entities (("A").data) =
      some { Name := ("A").data
             Attributes := [{ Name := ("x").data, AttrType := ("int").data },
                            { Name := ("y").data, AttrType := ("int").data }]
             Methods := [] } :=
  ⟨by decide,
    ((fragment_in_open_body_frame
      (runParser [("class A \x7b").data, (" x : int").data])
      (("A").data) (("A -- B : r").data)
      { Name := ("A").data
        Attributes := [{ Name := ("x").data, AttrType := ("int").data }]
        Methods := [] }
      (by decide) (by decide) (by decide) (by decide)
      (Or.inl ⟨⟨("A").data, [], ("--").data, [], ("B").data, ("r").data⟩,
        by decide⟩)
      (by decide)).2.2.2.1 ((" y : int").data) (("y").data) (("int").data)
      (by decide)).1⟩

/-- No `\s` character is a `\w` character. -/
theorem space_not_word {c : Char} (h : isSpaceGo c = true) :
    isWordChar c = false := by
  cases hw : isWordChar c
  · rfl
  · exfalso
    have n1 : c ≠ ' ' := fun hc => by subst hc; exact absurd hw (by decide)
    have n2 : c ≠ '\t' := fun hc => by subst hc; exact absurd hw (by decide)
    have n3 : c ≠ '\n' := fun hc => by subst hc; exact absurd hw (by decide)
    have n4 : c ≠ '\r' := fun hc => by subst hc; exact absurd hw (by decide)
    have n5 : c ≠ Char.ofNat 12 := fun hc => by subst hc; exact absurd hw (by decide)
    simp [isSpaceGo, n1, n2, n3, n4, n5] at h

/-- No `\s` character is a connector character. -/
theorem space_not_connector {c : Char} (h : isSpaceGo c = true) :
    isConnectorChar c = false := by
  cases hw : isConnectorChar c
  · rfl
  · exfalso
    have n1 : c ≠ ' ' := fun hc => by subst hc; exact absurd hw (by decide)
    have n2 : c ≠ '\t' := fun hc => by subst hc; exact absurd hw (by decide)
    have n3 : c ≠ '\n' := fun hc => by subst hc; exact absurd hw (by decide)
    have n4 : c ≠ '\r' := fun hc => by subst hc; exact absurd hw (by decide)
    have n5 : c ≠ Char.ofNat 12 := fun hc => by subst hc; exact absurd hw (by decide)
    simp [isSpaceGo, n1, n2, n3, n4, n5] at h

/-- A character-class munch yields nothing on a white-space run followed by a
quote, for any class that rejects white space and the quote character. -/
theorem munch_stops_space_quote {p : Char → Bool} (w r : List Char)
    (hw : w.all isSpaceGo = true)
    (hsp : ∀ c, isSpaceGo c = true → p c = false) (hq : p '"' = false) :
    (w ++ '"' :: r).takeWhile p = [] ∧ (w ++ '"' :: r).dropWhile p = w ++ '"' :: r := by
  cases w with
  | nil =>
    rw [List.nil_append]
    exact ⟨List.takeWhile_cons_of_neg (by simp [hq]),
      List.dropWhile_cons_of_neg (by simp [hq])⟩
  | cons c cs =>
    have hc : p c = false := hsp c (by
      simp only [List.all_cons, Bool.and_eq_true] at hw
      exact hw.1)
    rw [List.cons_append]
    exact ⟨List.takeWhile_cons_of_neg (by simp [hc]),
      List.dropWhile_cons_of_neg (by simp [hc])⟩

/-- The multiplicity separator `\s*("[^"]+")?\s+` declines whenever its
white space is followed by an adjacent pair of quotes: the pattern `"[^"]+"`
requires at least one character between the quotes, and the skip branch
would resume at the `"` character, which neither `\s` nor the following
class accepts. -/
theorem multSep_empty_quotes (w r : List Char) (hw : w.all isSpaceGo = true) :
    multSep (w ++ '"' :: '"' :: r) = none := by
  have hws : ∀ x ∈ w, isSpaceGo x := by simpa using hw
  have hd : (w ++ '"' :: '"' :: r).dropWhile isSpaceGo = '"' :: '"' :: r := by
    rw [List.dropWhile_append_of_pos hws, List.dropWhile_cons_of_neg (by decide)]
  simp [multSep, hd, List.takeWhile_cons, List.dropWhile_cons]

/-- When the multiplicity separator accepts, the line it was given cannot
start with a word character (it starts with white space or a quote), so the
`\w+` munch before it is exactly the name already consumed. -/
theorem multSep_some_not_word {rest : List Char} {p : List Char × List Char}
    (h : multSep rest = some p) :
    rest.takeWhile isWordChar = [] ∧ rest.dropWhile isWordChar = rest := by
  cases rest with
  | nil =>
    rw [show multSep ([] : List Char) = none from rfl] at h
    exact Option.noConfusion h
  | cons c cs =>
    cases hcw : isWordChar c
    · exact ⟨List.takeWhile_cons_of_neg (by simp [hcw]),
        List.dropWhile_cons_of_neg (by simp [hcw])⟩
    · exfalso
      have hcs : isSpaceGo c = false := by
        cases hsg : isSpaceGo c
        · rfl
        · rw [space_not_word hsg] at hcw; exact Bool.noConfusion hcw
      have hcq : c ≠ '"' := fun hqq => by subst hqq; exact absurd hcw (by decide)
      simp only [multSep] at h
      rw [List.dropWhile_cons_of_neg (by simp [hcs])] at h
      split at h
      · next r heq =>
          rw [List.cons.injEq] at heq
          exact hcq heq.1
      · rw [List.takeWhile_cons_of_neg (by simp [hcs])] at h
        simp at h

/-- The entity-key frame of the top-level dispatch when the relationship
matcher declines. -/
theorem topLevelContent_relationships (st : ParserState) (line : List Char)
    (h : relationMatch line = none) :
    (topLevelContent st line).model.Relationships = st.model.Relationships := by
  rw [topLevelContent.eq_def]
  split
  · rfl
  · simp only [h]
    split
    · rfl
    · rfl

/-- Any line whose trimmed form the relationship matcher declines leaves the
relationship list of the model unchanged, whatever the parser state. -/
theorem relationships_frame (st : ParserState) (raw : List Char)
    (h : relationMatch (trimSpace raw) = none) :
    (processLine st raw).model.Relationships = st.model.Relationships := by
  simp only [processLine]
  split
  · rfl
  · split
    · rfl
    · split
      · rw [bodyContent.eq_def]
        split
        · rfl
        · split
          · rfl
          · exact topLevelContent_relationships _ _ h
      · exact topLevelContent_relationships _ _ h

/-- The leading `(\\w+)` munch of `relationRegex` over a word name followed
by a non-word remainder. -/
theorem relationMatch_name_munch (a rest : List Char)
    (ha2 : a.all isWordChar = true)
    (hr : rest.takeWhile isWordChar = [] ∧ rest.dropWhile isWordChar = rest) :
    (a ++ rest).takeWhile isWordChar = a ∧
    (a ++ rest).dropWhile isWordChar = rest := by
  have hall : ∀ x ∈ a, isWordChar x := by simpa using ha2
  exact ⟨by rw [List.takeWhile_append_of_pos hall, hr.1, List.append_nil],
    by rw [List.dropWhile_append_of_pos hall, hr.2]⟩

/-- An empty quoted string in the first multiplicity position kills the
whole relationship match, whatever follows it. -/
theorem relationMatch_empty_first (a w r : List Char)
    (ha1 : a ≠ []) (ha2 : a.all isWordChar = true)
    (hw : w.all isSpaceGo = true) :
    relationMatch (a ++ (w ++ '"' :: '"' :: r)) = none := by
  obtain ⟨htk, hdr⟩ := relationMatch_name_munch a (w ++ '"' :: '"' :: r) ha2
    (munch_stops_space_quote w ('"' :: r) hw (fun c hc => space_not_word hc)
      (by decide))
  have hae : a.isEmpty = false := by
    cases a with
    | nil => exact absurd rfl ha1
    | cons a0 as => rfl
  have hms := multSep_empty_quotes w r hw
  simp only [relationMatch, htk, hdr, hms, hae, Bool.false_eq_true, if_false]

/-- An empty quoted string in the second multiplicity position kills the
whole relationship match whenever the part before it is well formed: the
first separator accepts and is followed by a non-empty connector run. -/
theorem relationMatch_empty_second (a rest g2 conn w r : List Char)
    (ha1 : a ≠ []) (ha2 : a.all isWordChar = true)
    (hsep : multSep rest = some (g2, conn ++ (w ++ '"' :: '"' :: r)))
    (hc1 : conn ≠ []) (hc2 : conn.all isConnectorChar = true)
    (hw : w.all isSpaceGo = true) :
    relationMatch (a ++ rest) = none := by
  obtain ⟨htk, hdr⟩ := relationMatch_name_munch a rest ha2 (multSep_some_not_word hsep)
  have hcall : ∀ x ∈ conn, isConnectorChar x := by simpa using hc2
  obtain ⟨hmt, hmd⟩ := munch_stops_space_quote (p := isConnectorChar) w ('"' :: r)
    hw (fun c hc => space_not_connector hc) (by decide)
  have htc : (conn ++ (w ++ '"' :: '"' :: r)).takeWhile isConnectorChar = conn := by
    rw [List.takeWhile_append_of_pos hcall, hmt, List.append_nil]
  have hdc : (conn ++ (w ++ '"' :: '"' :: r)).dropWhile isConnectorChar =
      w ++ '"' :: '"' :: r := by
    rw [List.dropWhile_append_of_pos hcall, hmd]
  have hae : a.isEmpty = false := by
    cases a with
    | nil => exact absurd rfl ha1
    | cons a0 as => rfl
  have hce : conn.isEmpty = false := by
    cases conn with
    | nil => exact absurd rfl hc1
    | cons c0 cs => rfl
  have hms := multSep_empty_quotes w r hw
  simp only [relationMatch, htk, hdr, hsep, htc, hdc, hms, hae, hce,
    Bool.false_eq_true, if_false]

/-- C9: the relationship matcher declines every relationship-shaped line in
which a multiplicity is written as an empty quoted string `""` — the
multiplicity pattern `"[^"]+"` requires at least one character between the
quotes — whether the `""` stands in the first position (a word name,
optional white space, then `""`, with an arbitrary remainder: any connector,
any second multiplicity, with or without label, e.g. `A "" -- "1" B : x`,
`A "" o-- B`, `A "" -- "" B`) or in the second (a well-formed name, first
separator and connector, optional white space, then `""`, e.g.
`A "1" -- "" B : x`); and any raw line trimming to such a line is silently
dropped instead of being parsed as a relationship: the model's relationship
list is unchanged in every parser state. -/
theorem empty_quoted_multiplicity_declined (a rest : List Char)
    (ha1 : a ≠ []) (ha2 : a.all isWordChar = true)
    (hshape :
      (∃ w r, rest = w ++ '"' :: '"' :: r ∧ w.all isSpaceGo = true) ∨
      (∃ g2 conn w r,
        multSep rest = some (g2, conn ++ (w ++ '"' :: '"' :: r)) ∧
        conn ≠ [] ∧ conn.all isConnectorChar = true ∧
        w.all isSpaceGo = true)) :
    relationMatch (a ++ rest) = none ∧
    ∀ raw st, trimSpace raw = a ++ rest →
      (processLine st raw).model.Relationships = st.model.Relationships := by
  have hm : relationMatch (a ++ rest) = none := by
    rcases hshape with ⟨w, r, hr, hw⟩ | ⟨g2, conn, w, r, hsep, hc1, hc2, hw⟩
    · subst hr
      exact relationMatch_empty_first a w r ha1 ha2 hw
    · exact relationMatch_empty_second a rest g2 conn w r ha1 ha2 hsep hc1 hc2 hw
  exact ⟨hm, fun raw st htr => relationships_frame st raw (by rw [htr]; exact hm)⟩

theorem empty_quoted_multiplicity_declined_witness :
    multSep (((" \"1\" -- \"\" B : x").data)) =
      some ((("\"1\"").data),
        ("--").data ++ (((" ").data) ++ '"' :: '"' :: ((" B : x").data))) ∧
    relationMatch (("A \"1\" -- \"\" B : x").data) = none ∧
    (processLine initState
        (("A \"1\" -- \"\" B : x").data)).model.Relationships =
      initState.model.Relationships :=
  ⟨by decide,
    (empty_quoted_multiplicity_declined (("A").data)
      ((" \"1\" -- \"\" B : x").data) (by decide) (by decide)
      (Or.inr ⟨("\"1\"").data, ("--").data, (" ").data, (" B : x").data,
        by decide, by decide, by decide, by decide⟩)).1,
    (empty_quoted_multiplicity_declined (("A").data)
      ((" \"1\" -- \"\" B : x").data) (by decide) (by decide)
      (Or.inr ⟨("\"1\"").data, ("--").data, (" ").data, (" B : x").data,
        by decide, by decide, by decide, by decide⟩)).2
      (("A \"1\" -- \"\" B : x").data) initState (by decide)⟩

/-- C6: parsing the single line
`Student "1" -- "0..*" StudyProgramme : enrolled` yields exactly one
relationship with the quote-stripped multiplicities and the label, and no
entities or constraints. -/
theorem single_relationship_line_parse :
    ParseLines [("Student \"1\" -- \"0..*\" StudyProgramme : enrolled").data] =
      { Entities := []
        Relationships := [{
          From := ("Student").data
          To := ("StudyProgramme").data
          RelType := ("--").data
          FromMultiplicity := ("1").data
          ToMultiplicity := ("0..*").data
          Label := ("enrolled").data }]
        Constraints := [] } := by decide

/-- C7: re-parsing the textual debug dump of a parser-produced model does not
reproduce the model; the witness input produces a relationship with absent
multiplicities, which the dump renders with empty quoted strings (on a line
prefixed `" - "`), and re-parsing that dump loses the relationship. -/
theorem dump_reparse_differs :
    ∃ input : List (List Char),
      ParseLines (debugPrintLines (ParseLines input)) ≠ ParseLines input := by
  refine ⟨[("A -- B : x").data], ?_⟩
  decide

end PlantUML
